import Mathlib

/-!
Verification of the incremental document-ingestion pipeline of this
repository (`src/procesar_docs2.py`, with the chunker configuration shared
with `src/procesar_docs.py`).

The embedding is shallow: timestamps are naturals (only their ordering is
ever used by the code), the change record `processed_files.json` is an
association list in Python-dict insertion order, directories holding a
vector index are modelled by an explicit `Dir` state (absent / being
written / completely written), and every external collaborator (PDF
loader + text splitter, embedding backend, FAISS load/save, the JSON
round-trip of the record file) is an oracle that either yields a value or
raises, mirroring the exception behaviour of the Python libraries.
-/

/-! ## Text chunker

`procesar_docs.py` (`dividir_texto`) and `procesar_docs2.py`
(`procesar_lote_documentos`) both delegate splitting to
`RecursiveCharacterTextSplitter(chunk_size := 1000, chunk_overlap := 200)`.
-/

/-- Chunk size used by both splitter call sites (source value 1000). -/
def chunk_size : Nat := 1000

/-- Chunk overlap used by both splitter call sites (source value 200). -/
def chunk_overlap : Nat := 200

/-- Modelled from the spec: the splitter itself is external library code
(`RecursiveCharacterTextSplitter`), absent from the repository, so the
Chunker is modelled from spec section 4.1: slide a window of `chunk_size`
characters across the page text with `chunk_overlap` characters of repeat
between consecutive windows (so the window advances by
`chunk_size - chunk_overlap`); a page shorter than `chunk_size` yields one
chunk equal to the whole page, an empty page yields no chunk. Page text is
a list of characters. -/
def dividir_texto (s : List Char) : List (List Char) :=
  if _h : s.length ≤ chunk_size then
    if s.isEmpty then [] else [s]
  else
    s.take chunk_size :: dividir_texto (s.drop (chunk_size - chunk_overlap))
termination_by s.length
decreasing_by
  simp only [List.length_drop, chunk_size, chunk_overlap] at *
  omega

/-- Two consecutive chunks overlap by exactly `chunk_overlap` characters:
the earlier chunk is a full window and its `chunk_overlap`-character
suffix is the `chunk_overlap`-character prefix of the later chunk (which
is long enough for that prefix to be full). -/
def overlapExact (a b : List Char) : Prop :=
  a.length = chunk_size ∧ chunk_overlap ≤ b.length ∧
    a.drop (chunk_size - chunk_overlap) = b.take chunk_overlap

/-- Concatenate chunks dropping the `chunk_overlap`-character overlapping
suffix of every chunk but the last. -/
def joinDropSuffix : List (List Char) → List Char
  | [] => []
  | [c] => c
  | a :: b :: rest => a.take (a.length - chunk_overlap) ++ joinDropSuffix (b :: rest)

/-! ## Change record (`processed_files.json`)

The record is a Python dict path ↦ mtime serialised as JSON; modelled as an
association list in insertion order. `os.path.getmtime` returns seconds;
only `<` comparisons occur in the source, so timestamps are naturals. -/

/-- A change record: one entry per source-file path, in insertion order. -/
abbrev Reg := List (String × Nat)

/-- First-match lookup, the read of `registro[nombre]` / `nombre in registro`. -/
def lookupReg : Reg → String → Option Nat
  | [], _ => none
  | (k', v') :: rest, k => if k' = k then some v' else lookupReg rest k

/-- Python dict assignment `registro[nombre] = mtime`: overwrite the first
entry with that key in place, else append a new entry. -/
def setReg : Reg → String → Nat → Reg
  | [], k, v => [(k, v)]
  | (k', v') :: rest, k, v =>
      if k' = k then (k, v) :: rest else (k', v') :: setReg rest k v

/-! ## Filesystem and oracle model -/

/-- A document chunk: the source path it came from plus its text.
(The page number carried by the Python `Document` metadata is irrelevant
to every claim and folded into `txt`.) -/
structure Doc where
  src : String
  txt : String
deriving DecidableEq, Repr

/-- State of a directory holding a FAISS index on disk: absent, in the
middle of being written (`save_local` started but did not finish), or a
completely written index holding the given documents. -/
inductive Dir where
  | absent : Dir
  | writing : List Doc → Dir
  | complete : List Doc → Dir
deriving DecidableEq, Repr

/-- `Path.exists()` for a directory. -/
def dirExists : Dir → Bool
  | Dir.absent => false
  | _ => true

/-- The documents a directory holds (what `FAISS.load_local` would read). -/
def dirDocs : Dir → List Doc
  | Dir.absent => []
  | Dir.writing ds => ds
  | Dir.complete ds => ds

/-- The filesystem state the pipeline mutates: `DIR_DB_FAISS` (published
index), `DIR_DB_TEMP` (staging), and `ARCHIVO_REGISTRO`
(`processed_files.json`): `none` = file absent, `some none` = file present
but unreadable (`json.load` raises), `some (some r)` = readable record. -/
structure FS where
  pub : Dir
  temp : Dir
  regFile : Option (Option Reg)
deriving DecidableEq, Repr

/-- A source PDF discovered by `DIR_DOCS.glob("*.pdf")`: its path and its
current `os.path.getmtime`. -/
structure SrcFile where
  path : String
  mtime : Nat
deriving DecidableEq, Repr

/-- The selection test of line 49 of `procesar_docs2.py`, as a Boolean:
the file is absent from the record, or its recorded mtime is strictly
below its current one. -/
def staleB (reg : Reg) (sf : SrcFile) : Bool :=
  match lookupReg reg sf.path with
  | none => true
  | some t => decide (t < sf.mtime)

/-- The same selection test as a proposition, as the claims phrase it. -/
def needsIngest (reg : Reg) (sf : SrcFile) : Prop :=
  lookupReg reg sf.path = none ∨
    ∃ t, lookupReg reg sf.path = some t ∧ t < sf.mtime

/-- Behaviour of the external collaborators during one run. `parse p` is
`PyPDFLoader(p).load()` composed with the text splitter: `none` models the
loader raising, `some ds` the chunks obtained from that file. The `Bool`
fields tell whether the corresponding fallible library call succeeds:
`HuggingFaceEmbeddings(...)` construction, `FAISS.load_local`, the
per-batch embedding (`add_documents` / `from_documents`), `save_local`,
and the `guardar_registro_archivos` JSON write. -/
structure Oracle where
  parse : String → Option (List Doc)
  embedInitOk : Bool
  loadOk : Bool
  embedOk : Bool
  saveOk : Bool
  saveRegOk : Bool

/-- Stage at which an exception was raised. -/
inductive Stage where
  | loadReg | embedInit | loadIdx | embed | saveIdx | saveReg
deriving DecidableEq, Repr

/-- Result of one run of `main`: the observable filesystem states strictly
before the `os.rename` swap completes (`preSwap`, starting from the
initial state), the states from swap completion on (`postSwap`, empty when
no swap happened), the final state, the stage whose exception ended the
run (`none` = no exception), the number of chunks sent to the embedding
backend, and the final in-memory record. -/
structure RunResult where
  preSwap : List FS
  postSwap : List FS
  final : FS
  err : Option Stage
  embedCalls : Nat
  regMem : Reg
deriving Repr

/-- Every observable filesystem state of the run, in order. -/
def RunResult.trace (r : RunResult) : List FS := r.preSwap ++ r.postSwap

/-! ## The pipeline functions of `procesar_docs2.py` -/

/-- `cargar_registro_archivos` (lines 26-31): `{}` when the file does not
exist; otherwise `json.load` the file, whose failure propagates (it is not
caught anywhere: the call at line 85 sits outside the `try` block). -/
def cargar_registro_archivos : Option (Option Reg) → Except Unit Reg
  | none => Except.ok []
  | some none => Except.error ()
  | some (some r) => Except.ok r

/-- The `for archivo_pdf in DIR_DOCS.glob("*.pdf")` loop of
`obtener_archivos_a_procesar` (lines 45-52): a file absent from the record
or with a recorded mtime strictly below its current one is appended to the
result and its record entry set to the current mtime. -/
def obtenerLoop : List SrcFile → List String → Reg → List String × Reg
  | [], acc, reg => (acc, reg)
  | sf :: rest, acc, reg =>
      match lookupReg reg sf.path with
      | none => obtenerLoop rest (acc ++ [sf.path]) (setReg reg sf.path sf.mtime)
      | some t =>
          if t < sf.mtime then
            obtenerLoop rest (acc ++ [sf.path]) (setReg reg sf.path sf.mtime)
          else
            obtenerLoop rest acc reg

/-- `obtener_archivos_a_procesar` (lines 38-53). `ex` is
`DIR_DOCS.exists()`; when false the function logs and returns `[]` leaving
the record untouched. Returns the new/modified paths together with the
mutated in-memory record. -/
def obtener_archivos_a_procesar (ex : Bool) (docs : List SrcFile) (registro : Reg) :
    List String × Reg :=
  if !ex then ([], registro) else obtenerLoop docs [] registro

/-- `procesar_lote_documentos` (lines 55-75): load each file, skipping
(`continue`) any whose loader raises, then split the loaded pages into
chunks. Loading and splitting are both external library calls, folded into
the `parse` oracle. -/
def procesar_lote_documentos (parse : String → Option (List Doc)) (rutas : List String) :
    List Doc :=
  rutas.foldl (fun docs ruta =>
    match parse ruta with
    | none => docs
    | some ds => docs ++ ds) []

/-- Lines 116-137 of `main`: `save_local` into `DIR_DB_TEMP` (begun, then
either failing — caught by the handler, which removes the staging
directory — or completed), the swap (`shutil.rmtree(DIR_DB_FAISS)` when it
exists, then the atomic `os.rename`), and the final
`guardar_registro_archivos`, whose failure is caught by the handler (which
finds no staging directory left to remove). `fsA` is the state at line
116: staging already removed, published untouched. -/
def finishPublish (fs0 fsA : FS) (dbF : List Doc) (calls : Nat) (reg1 : Reg)
    (o : Oracle) : RunResult :=
  let fsB : FS := { fsA with temp := Dir.writing dbF }
  if !o.saveOk then
    let fsC : FS := { fsB with temp := Dir.absent }
    ⟨[fs0, fsA, fsB, fsC], [], fsC, some Stage.saveIdx, calls, reg1⟩
  else
    let fsC : FS := { fsA with temp := Dir.complete dbF }
    let preD : List FS := if dirExists fsA.pub then [{ fsC with pub := Dir.absent }] else []
    let fsE : FS := { fsC with pub := Dir.complete dbF, temp := Dir.absent }
    if !o.saveRegOk then
      ⟨[fs0, fsA, fsB, fsC] ++ preD, [fsE], fsE, some Stage.saveReg, calls, reg1⟩
    else
      let fsF : FS := { fsE with regFile := some (some reg1) }
      ⟨[fs0, fsA, fsB, fsC] ++ preD, [fsE, fsF], fsF, none, calls, reg1⟩

/-- `main` (lines 79-137). Control flow of the source, in order: load the
record (an unreadable record file raises outside the `try` block and ends
the run with nothing mutated); compute the files to process; exit when
there are none and a published index exists; inside the `try`: parse and
chunk the batch, construct the embedding backend, remove a leftover
staging directory, then extend the loaded index / build a fresh one /
exit when there are no chunks, and hand over to `finishPublish`. The
`except` handler (lines 132-137) removes the staging directory when it
exists and leaves everything else as it stands. -/
def runMain (ex : Bool) (docs : List SrcFile) (o : Oracle) (fs0 : FS) : RunResult :=
  match cargar_registro_archivos fs0.regFile with
  | Except.error _ => ⟨[fs0], [], fs0, some Stage.loadReg, 0, []⟩
  | Except.ok reg0 =>
    let p := obtener_archivos_a_procesar ex docs reg0
    let files := p.1
    let reg1 := p.2
    if files.isEmpty && dirExists fs0.pub then
      ⟨[fs0], [], fs0, none, 0, reg1⟩
    else
      let chunks := procesar_lote_documentos o.parse files
      if !o.embedInitOk then
        let fsH : FS := { fs0 with temp := Dir.absent }
        ⟨[fs0, fsH], [], fsH, some Stage.embedInit, 0, reg1⟩
      else
        let fsA : FS := { fs0 with temp := Dir.absent }
        if dirExists fs0.pub && !chunks.isEmpty then
          if !o.loadOk then
            ⟨[fs0, fsA], [], fsA, some Stage.loadIdx, 0, reg1⟩
          else if !o.embedOk then
            ⟨[fs0, fsA], [], fsA, some Stage.embed, chunks.length, reg1⟩
          else
            finishPublish fs0 fsA (dirDocs fs0.pub ++ chunks) chunks.length reg1 o
        else if !chunks.isEmpty then
          if !o.embedOk then
            ⟨[fs0, fsA], [], fsA, some Stage.embed, chunks.length, reg1⟩
          else
            finishPublish fs0 fsA chunks chunks.length reg1 o
        else
          ⟨[fs0, fsA], [], fsA, none, 0, reg1⟩

/-! ## Chunker lemmas -/

theorem dividir_texto_head (s : List Char) (hne : s ≠ []) :
    (dividir_texto s).head? = some (s.take chunk_size) := by
  rw [dividir_texto.eq_def]
  split
  · next h =>
      simp only [List.isEmpty_iff, hne, if_false, List.head?_cons,
        List.take_of_length_le h]
  · simp

theorem dividir_texto_ne_nil (s : List Char) (hne : s ≠ []) :
    dividir_texto s ≠ [] := by
  intro hn
  have := dividir_texto_head s hne
  rw [hn] at this
  simp at this

theorem dividir_texto_chain (s : List Char) :
    List.Chain' overlapExact (dividir_texto s) := by
  induction s using dividir_texto.induct with
  | case1 s h he =>
      rw [dividir_texto.eq_def]
      rw [dif_pos h, if_pos he]
      simp
  | case2 s h he =>
      rw [dividir_texto.eq_def]
      rw [dif_pos h, if_neg he]
      simp
  | case3 s h ih =>
      rw [dividir_texto.eq_def]
      rw [dif_neg h]
      refine List.chain'_cons'.mpr ⟨?_, ih⟩
      intro b hb
      have hdne : s.drop (chunk_size - chunk_overlap) ≠ [] := by
        simp only [chunk_size, chunk_overlap] at *
        intro hc
        have := congrArg List.length hc
        simp at this
        omega
      rw [dividir_texto_head _ hdne] at hb
      simp only [Option.mem_def, Option.some.injEq] at hb
      subst hb
      refine ⟨?_, ?_, ?_⟩
      · simp only [List.length_take, chunk_size] at *
        omega
      · simp only [List.length_take, List.length_drop, chunk_size, chunk_overlap] at *
        omega
      · rw [List.drop_take, List.take_take]
        simp [chunk_size, chunk_overlap]

theorem dividir_texto_join (s : List Char) :
    joinDropSuffix (dividir_texto s) = s := by
  induction s using dividir_texto.induct with
  | case1 s h he =>
      rw [dividir_texto.eq_def]
      rw [dif_pos h, if_pos he]
      rw [List.isEmpty_iff] at he
      rw [he]
      rfl
  | case2 s h he =>
      rw [dividir_texto.eq_def]
      rw [dif_pos h, if_neg he]
      rfl
  | case3 s h ih =>
      rw [dividir_texto.eq_def]
      rw [dif_neg h]
      have hdne : s.drop (chunk_size - chunk_overlap) ≠ [] := by
        simp only [chunk_size, chunk_overlap] at *
        intro hc
        have := congrArg List.length hc
        simp at this
        omega
      obtain ⟨b, t, hbt⟩ := List.exists_cons_of_ne_nil (dividir_texto_ne_nil _ hdne)
      rw [hbt]
      rw [hbt] at ih
      show (s.take chunk_size).take ((s.take chunk_size).length - chunk_overlap) ++
        joinDropSuffix (b :: t) = s
      rw [ih]
      have hlen : (s.take chunk_size).length = chunk_size := by
        simp only [List.length_take, chunk_size] at *
        omega
      rw [hlen, List.take_take]
      have hmin : min (chunk_size - chunk_overlap) chunk_size = chunk_size - chunk_overlap := by
        simp [chunk_size, chunk_overlap]
      rw [hmin, List.take_append_drop]

/-- C8: for every page text of length strictly greater than `chunk_size`
(1000), the Chunker produces at least two chunks, consecutive chunks
overlap by exactly `chunk_overlap` (200) characters, and concatenating the
chunks while dropping each overlapping suffix reconstructs the original
page text exactly. -/
theorem C8_overlap_and_reconstruction (s : List Char) (h : chunk_size < s.length) :
    1 < (dividir_texto s).length ∧
    List.Chain' overlapExact (dividir_texto s) ∧
    joinDropSuffix (dividir_texto s) = s := by
  refine ⟨?_, dividir_texto_chain s, dividir_texto_join s⟩
  rw [dividir_texto.eq_def, dif_neg (Nat.not_le.mpr h)]
  have hdne : s.drop (chunk_size - chunk_overlap) ≠ [] := by
    simp only [chunk_size, chunk_overlap] at *
    intro hc
    have := congrArg List.length hc
    simp at this
    omega
  have hp : 0 < (dividir_texto (s.drop (chunk_size - chunk_overlap))).length :=
    List.length_pos.mpr (dividir_texto_ne_nil _ hdne)
  simp only [List.length_cons]
  omega

theorem C8_overlap_and_reconstruction_witness :
    chunk_size < (List.replicate 1201 'a').length ∧
    (1 < (dividir_texto (List.replicate 1201 'a')).length ∧
     List.Chain' overlapExact (dividir_texto (List.replicate 1201 'a')) ∧
     joinDropSuffix (dividir_texto (List.replicate 1201 'a')) = List.replicate 1201 'a') :=
  ⟨by norm_num [chunk_size],
   C8_overlap_and_reconstruction (List.replicate 1201 'a') (by norm_num [chunk_size])⟩

/-- C9: a nonempty page text strictly shorter than `chunk_size` (1000)
yields exactly one chunk equal to the whole page, and the empty page text
yields zero chunks. -/
theorem C9_short_page_chunks (s : List Char) (h : s.length < chunk_size) :
    (s ≠ [] → dividir_texto s = [s]) ∧ dividir_texto ([] : List Char) = [] := by
  constructor
  · intro hne
    rw [dividir_texto.eq_def, dif_pos (Nat.le_of_lt h),
      if_neg (by simpa [List.isEmpty_iff] using hne)]
  · rw [dividir_texto.eq_def]
    simp

theorem C9_short_page_chunks_witness :
    (['a'] : List Char).length < chunk_size ∧
    ((['a'] : List Char) ≠ [] → dividir_texto ['a'] = [['a']]) ∧
    dividir_texto ([] : List Char) = [] :=
  ⟨by norm_num [chunk_size], C9_short_page_chunks ['a'] (by norm_num [chunk_size])⟩

/-! ## Change-record lemmas -/

theorem lookupReg_setReg (reg : Reg) (k : String) (v : Nat) (q : String) :
    lookupReg (setReg reg k v) q = if k = q then some v else lookupReg reg q := by
  induction reg with
  | nil => simp [setReg, lookupReg]
  | cons p rest ih =>
      obtain ⟨k', v'⟩ := p
      simp only [setReg]
      by_cases hk : k' = k
      · rw [if_pos hk, hk]
        simp only [lookupReg]
        by_cases hq : k = q <;> simp [hq]
      · rw [if_neg hk]
        simp only [lookupReg, ih]
        by_cases hq : k' = q
        · have hkq : k ≠ q := fun he => hk (hq.trans he.symm)
          simp [hq, hkq]
        · simp [hq]

theorem staleB_true_iff (reg : Reg) (sf : SrcFile) :
    staleB reg sf = true ↔ needsIngest reg sf := by
  unfold staleB needsIngest
  cases h : lookupReg reg sf.path <;> simp

theorem staleB_congr (reg reg' : Reg) (sf : SrcFile)
    (h : lookupReg reg' sf.path = lookupReg reg sf.path) :
    staleB reg' sf = staleB reg sf := by
  unfold staleB
  rw [h]

theorem obtenerLoop_lookup_mono (docs : List SrcFile) (acc : List String) (reg : Reg)
    (q : String) (t : Nat) (h : lookupReg reg q = some t) :
    ∃ u, lookupReg (obtenerLoop docs acc reg).2 q = some u ∧ t ≤ u := by
  induction docs generalizing acc reg t with
  | nil => exact ⟨t, h, Nat.le_refl t⟩
  | cons sf rest ih =>
      cases hl : lookupReg reg sf.path with
      | none =>
          simp only [obtenerLoop, hl]
          have hq : sf.path ≠ q := fun he => by rw [he, h] at hl; cases hl
          exact ih _ _ t (by rw [lookupReg_setReg, if_neg hq]; exact h)
      | some t' =>
          by_cases hlt : t' < sf.mtime
          · simp only [obtenerLoop, hl, if_pos hlt]
            by_cases hq : sf.path = q
            · subst hq
              rw [h] at hl
              injection hl with he
              subst he
              obtain ⟨u, hu, hle⟩ :=
                ih (acc ++ [sf.path]) (setReg reg sf.path sf.mtime) sf.mtime
                  (by rw [lookupReg_setReg, if_pos rfl])
              exact ⟨u, hu, Nat.le_trans (Nat.le_of_lt hlt) hle⟩
            · exact ih _ _ t (by rw [lookupReg_setReg, if_neg hq]; exact h)
          · simp only [obtenerLoop, hl, if_neg hlt]
            exact ih _ _ t h

theorem obtenerLoop_covers (docs : List SrcFile) (acc : List String) (reg : Reg)
    (sf : SrcFile) (hmem : sf ∈ docs) :
    ∃ u, lookupReg (obtenerLoop docs acc reg).2 sf.path = some u ∧ sf.mtime ≤ u := by
  induction docs generalizing acc reg with
  | nil => cases hmem
  | cons sf0 rest ih =>
      rcases List.mem_cons.mp hmem with heq | hmem'
      · subst heq
        cases hl : lookupReg reg sf.path with
        | none =>
            simp only [obtenerLoop, hl]
            exact obtenerLoop_lookup_mono rest _ _ sf.path sf.mtime
              (by rw [lookupReg_setReg, if_pos rfl])
        | some t =>
            by_cases hlt : t < sf.mtime
            · simp only [obtenerLoop, hl, if_pos hlt]
              exact obtenerLoop_lookup_mono rest _ _ sf.path sf.mtime
                (by rw [lookupReg_setReg, if_pos rfl])
            · simp only [obtenerLoop, hl, if_neg hlt]
              obtain ⟨u, hu, hle⟩ := obtenerLoop_lookup_mono rest acc reg sf.path t hl
              exact ⟨u, hu, Nat.le_trans (Nat.le_of_not_lt hlt) hle⟩
      · cases hl : lookupReg reg sf0.path with
        | none =>
            simp only [obtenerLoop, hl]
            exact ih _ _ hmem'
        | some t =>
            by_cases hlt : t < sf0.mtime
            · simp only [obtenerLoop, hl, if_pos hlt]
              exact ih _ _ hmem'
            · simp only [obtenerLoop, hl, if_neg hlt]
              exact ih _ _ hmem'

theorem obtenerLoop_no_stale (docs : List SrcFile) (acc : List String) (reg : Reg)
    (h : ∀ sf ∈ docs, ∃ t, lookupReg reg sf.path = some t ∧ sf.mtime ≤ t) :
    obtenerLoop docs acc reg = (acc, reg) := by
  induction docs generalizing acc with
  | nil => rfl
  | cons sf rest ih =>
      obtain ⟨t, ht, hle⟩ := h sf (List.mem_cons_self sf rest)
      simp only [obtenerLoop, ht, if_neg (Nat.not_lt.mpr hle)]
      exact ih _ (fun sf' hm => h sf' (List.mem_cons_of_mem _ hm))

theorem obtenerLoop_lookup_untouched (docs : List SrcFile) (acc : List String)
    (reg : Reg) (q : String) (hq : q ∉ docs.map SrcFile.path) :
    lookupReg (obtenerLoop docs acc reg).2 q = lookupReg reg q := by
  induction docs generalizing acc reg with
  | nil => rfl
  | cons sf rest ih =>
      simp only [List.map_cons, List.mem_cons, not_or] at hq
      have hne : sf.path ≠ q := fun he => hq.1 he.symm
      cases hl : lookupReg reg sf.path with
      | none =>
          simp only [obtenerLoop, hl]
          rw [ih _ _ hq.2, lookupReg_setReg, if_neg hne]
      | some t =>
          by_cases hlt : t < sf.mtime
          · simp only [obtenerLoop, hl, if_pos hlt]
            rw [ih _ _ hq.2, lookupReg_setReg, if_neg hne]
          · simp only [obtenerLoop, hl, if_neg hlt]
            exact ih _ _ hq.2

theorem obtenerLoop_files_eq (docs : List SrcFile) :
    ∀ (acc : List String) (reg : Reg), (docs.map SrcFile.path).Nodup →
      (obtenerLoop docs acc reg).1 = acc ++ (docs.filter (staleB reg)).map SrcFile.path := by
  induction docs with
  | nil => intro acc reg _; simp [obtenerLoop]
  | cons sf rest ih =>
      intro acc reg hnd
      simp only [List.map_cons, List.nodup_cons] at hnd
      have hcongr : ∀ x ∈ rest, staleB (setReg reg sf.path sf.mtime) x = staleB reg x := by
        intro x hx
        apply staleB_congr
        rw [lookupReg_setReg]
        have hne : sf.path ≠ x.path :=
          fun he => hnd.1 (he ▸ List.mem_map_of_mem SrcFile.path hx)
        rw [if_neg hne]
      cases hl : lookupReg reg sf.path with
      | none =>
          have hst : staleB reg sf = true := by simp [staleB, hl]
          simp only [obtenerLoop, hl]
          rw [ih _ _ hnd.2, List.filter_congr hcongr,
            List.filter_cons_of_pos hst, List.map_cons]
          simp
      | some t =>
          by_cases hlt : t < sf.mtime
          · have hst : staleB reg sf = true := by simp [staleB, hl, hlt]
            simp only [obtenerLoop, hl, if_pos hlt]
            rw [ih _ _ hnd.2, List.filter_congr hcongr,
              List.filter_cons_of_pos hst, List.map_cons]
            simp
          · have hst : ¬staleB reg sf = true := by simp [staleB, hl, hlt]
            simp only [obtenerLoop, hl, if_neg hlt]
            rw [ih _ _ hnd.2, List.filter_cons_of_neg hst]

theorem obtenerLoop_lookup_processed (docs : List SrcFile) :
    ∀ (acc : List String) (reg : Reg), (docs.map SrcFile.path).Nodup →
      ∀ sf ∈ docs, staleB reg sf = true →
        lookupReg (obtenerLoop docs acc reg).2 sf.path = some sf.mtime := by
  induction docs with
  | nil => intro acc reg _ sf hm; cases hm
  | cons sf0 rest ih =>
      intro acc reg hnd sf hm hst
      simp only [List.map_cons, List.nodup_cons] at hnd
      rcases List.mem_cons.mp hm with heq | hm'
      · subst heq
        cases hl : lookupReg reg sf.path with
        | none =>
            simp only [obtenerLoop, hl]
            rw [obtenerLoop_lookup_untouched _ _ _ _ hnd.1, lookupReg_setReg, if_pos rfl]
        | some t =>
            have hlt : t < sf.mtime := by
              simp only [staleB, hl, decide_eq_true_eq] at hst
              exact hst
            simp only [obtenerLoop, hl, if_pos hlt]
            rw [obtenerLoop_lookup_untouched _ _ _ _ hnd.1, lookupReg_setReg, if_pos rfl]
      · have hne : sf0.path ≠ sf.path :=
          fun he => hnd.1 (he ▸ List.mem_map_of_mem SrcFile.path hm')
        have hst' : staleB (setReg reg sf0.path sf0.mtime) sf = true := by
          have hc := staleB_congr reg (setReg reg sf0.path sf0.mtime) sf
            (by rw [lookupReg_setReg, if_neg hne])
          rw [hc]
          exact hst
        cases hl : lookupReg reg sf0.path with
        | none =>
            simp only [obtenerLoop, hl]
            exact ih _ _ hnd.2 sf hm' hst'
        | some t =>
            by_cases hlt : t < sf0.mtime
            · simp only [obtenerLoop, hl, if_pos hlt]
              exact ih _ _ hnd.2 sf hm' hst'
            · simp only [obtenerLoop, hl, if_neg hlt]
              exact ih _ _ hnd.2 sf hm' hst

theorem obtenerLoop_lookup_unselected (docs : List SrcFile) :
    ∀ (acc : List String) (reg : Reg) (q : String), (docs.map SrcFile.path).Nodup →
      q ∉ (docs.filter (staleB reg)).map SrcFile.path →
      lookupReg (obtenerLoop docs acc reg).2 q = lookupReg reg q := by
  induction docs with
  | nil => intro acc reg q _ _; rfl
  | cons sf0 rest ih =>
      intro acc reg q hnd hq
      simp only [List.map_cons, List.nodup_cons] at hnd
      have hcongr : ∀ x ∈ rest, staleB (setReg reg sf0.path sf0.mtime) x = staleB reg x := by
        intro x hx
        apply staleB_congr
        rw [lookupReg_setReg]
        have hne : sf0.path ≠ x.path :=
          fun he => hnd.1 (he ▸ List.mem_map_of_mem SrcFile.path hx)
        rw [if_neg hne]
      by_cases hst : staleB reg sf0 = true
      · rw [List.filter_cons_of_pos hst, List.map_cons] at hq
        simp only [List.mem_cons, not_or] at hq
        have hne : sf0.path ≠ q := fun he => hq.1 he.symm
        have hq2 : q ∉ (rest.filter (staleB (setReg reg sf0.path sf0.mtime))).map
            SrcFile.path := by
          rw [List.filter_congr hcongr]
          exact hq.2
        cases hl : lookupReg reg sf0.path with
        | none =>
            simp only [obtenerLoop, hl]
            rw [ih _ _ _ hnd.2 hq2, lookupReg_setReg, if_neg hne]
        | some t =>
            have hlt : t < sf0.mtime := by
              simp only [staleB, hl, decide_eq_true_eq] at hst
              exact hst
            simp only [obtenerLoop, hl, if_pos hlt]
            rw [ih _ _ _ hnd.2 hq2, lookupReg_setReg, if_neg hne]
      · rw [List.filter_cons_of_neg hst] at hq
        cases hl : lookupReg reg sf0.path with
        | none =>
            exact absurd (by simp [staleB, hl]) hst
        | some t =>
            have hlt : ¬t < sf0.mtime := by
              intro hc
              exact hst (by simp [staleB, hl, hc])
            simp only [obtenerLoop, hl, if_neg hlt]
            exact ih _ _ _ hnd.2 hq

theorem obtener_eq_loop (docs : List SrcFile) (reg : Reg) :
    obtener_archivos_a_procesar true docs reg = obtenerLoop docs [] reg := rfl

/-- C4 (counterexample): the claim says an unreadable persisted record
file is treated as an empty record; `cargar_registro_archivos` instead
propagates the `json.load` exception, so loading an existing-but-unreadable
record file does not return the empty record. -/
theorem C4_unreadable_not_empty_counterexample :
    cargar_registro_archivos (some none) = Except.error () ∧
    cargar_registro_archivos (some none) ≠ Except.ok ([] : Reg) := by
  constructor
  · rfl
  · intro h
    cases h

/-- C4 (amended): `load` returns the persisted record when the file exists
and is readable, and an empty record when no file exists; but when the
file exists and is unreadable it raises (the exception escapes the `try`
of `main`, so such a run aborts at the record-loading stage with the
filesystem untouched), rather than being treated as an empty record. -/
theorem C4_load_record_amended :
    cargar_registro_archivos none = Except.ok ([] : Reg) ∧
    (∀ r : Reg, cargar_registro_archivos (some (some r)) = Except.ok r) ∧
    cargar_registro_archivos (some none) = Except.error () ∧
    (∀ (ex : Bool) (docs : List SrcFile) (o : Oracle) (pub temp : Dir),
      (runMain ex docs o ⟨pub, temp, some none⟩).err = some Stage.loadReg ∧
      (runMain ex docs o ⟨pub, temp, some none⟩).final = ⟨pub, temp, some none⟩) := by
  refine ⟨rfl, fun r => rfl, rfl, fun ex docs o pub temp => ⟨rfl, rfl⟩⟩

/-- C5: with the documents directory in place, the files-to-ingest
computation returns exactly the paths of source files absent from the
record or carrying a modification time above the recorded one; it updates
the in-memory record's timestamp exactly for the returned files and leaves
every other lookup unchanged. -/
theorem C5_files_to_ingest (docs : List SrcFile) (reg : Reg)
    (hnd : (docs.map SrcFile.path).Nodup) :
    (∀ q : String, q ∈ (obtener_archivos_a_procesar true docs reg).1 ↔
        ∃ sf ∈ docs, sf.path = q ∧ needsIngest reg sf) ∧
    (∀ sf ∈ docs, sf.path ∈ (obtener_archivos_a_procesar true docs reg).1 →
        lookupReg (obtener_archivos_a_procesar true docs reg).2 sf.path = some sf.mtime) ∧
    (∀ q : String, q ∉ (obtener_archivos_a_procesar true docs reg).1 →
        lookupReg (obtener_archivos_a_procesar true docs reg).2 q = lookupReg reg q) := by
  have hfiles : (obtener_archivos_a_procesar true docs reg).1 =
      (docs.filter (staleB reg)).map SrcFile.path := by
    rw [obtener_eq_loop, obtenerLoop_files_eq docs [] reg hnd, List.nil_append]
  refine ⟨?_, ?_, ?_⟩
  · intro q
    rw [hfiles]
    constructor
    · intro hq
      obtain ⟨sf, hsf, rfl⟩ := List.mem_map.mp hq
      obtain ⟨hm, hst⟩ := List.mem_filter.mp hsf
      exact ⟨sf, hm, rfl, (staleB_true_iff reg sf).mp hst⟩
    · rintro ⟨sf, hm, rfl, hni⟩
      exact List.mem_map.mpr ⟨sf,
        List.mem_filter.mpr ⟨hm, (staleB_true_iff reg sf).mpr hni⟩, rfl⟩
  · intro sf hm hmem
    rw [hfiles] at hmem
    obtain ⟨sf', hsf', hpe⟩ := List.mem_map.mp hmem
    obtain ⟨hm', hst'⟩ := List.mem_filter.mp hsf'
    have heq : sf' = sf := List.inj_on_of_nodup_map hnd hm' hm hpe
    subst heq
    rw [obtener_eq_loop]
    exact obtenerLoop_lookup_processed docs [] reg hnd sf' hm hst'
  · intro q hq
    rw [hfiles] at hq
    rw [obtener_eq_loop]
    exact obtenerLoop_lookup_unselected docs [] reg q hnd hq

theorem C5_files_to_ingest_witness :
    (([⟨"a.pdf", 5⟩, ⟨"b.pdf", 3⟩] : List SrcFile).map SrcFile.path).Nodup ∧
    ((∀ q : String,
        q ∈ (obtener_archivos_a_procesar true [⟨"a.pdf", 5⟩, ⟨"b.pdf", 3⟩]
          [("b.pdf", 3)]).1 ↔
        ∃ sf ∈ ([⟨"a.pdf", 5⟩, ⟨"b.pdf", 3⟩] : List SrcFile), sf.path = q ∧
          needsIngest [("b.pdf", 3)] sf) ∧
    (∀ sf ∈ ([⟨"a.pdf", 5⟩, ⟨"b.pdf", 3⟩] : List SrcFile),
        sf.path ∈ (obtener_archivos_a_procesar true [⟨"a.pdf", 5⟩, ⟨"b.pdf", 3⟩]
          [("b.pdf", 3)]).1 →
        lookupReg (obtener_archivos_a_procesar true [⟨"a.pdf", 5⟩, ⟨"b.pdf", 3⟩]
          [("b.pdf", 3)]).2 sf.path = some sf.mtime) ∧
    (∀ q : String,
        q ∉ (obtener_archivos_a_procesar true [⟨"a.pdf", 5⟩, ⟨"b.pdf", 3⟩]
          [("b.pdf", 3)]).1 →
        lookupReg (obtener_archivos_a_procesar true [⟨"a.pdf", 5⟩, ⟨"b.pdf", 3⟩]
          [("b.pdf", 3)]).2 q = lookupReg [("b.pdf", 3)] q)) :=
  ⟨by decide, C5_files_to_ingest [⟨"a.pdf", 5⟩, ⟨"b.pdf", 3⟩] [("b.pdf", 3)] (by decide)⟩

/-- C2: when an exception arises during chunking, embedding
(backend construction or batch embedding) or publishing (the staging
write), the run aborts with the error reported, the published index
directory and the persisted change record are exactly as before the run,
and no staging directory is left behind. -/
theorem C2_abort_leaves_state (ex : Bool) (docs : List SrcFile) (o : Oracle) (fs0 : FS)
    (s : Stage) (h : (runMain ex docs o fs0).err = some s)
    (hs : s = Stage.embedInit ∨ s = Stage.embed ∨ s = Stage.saveIdx) :
    (runMain ex docs o fs0).final.pub = fs0.pub ∧
    (runMain ex docs o fs0).final.regFile = fs0.regFile ∧
    (runMain ex docs o fs0).final.temp = Dir.absent := by
  revert h
  unfold runMain finishPublish
  split
  · intro h
    injection h with h'
    subst h'
    exact absurd hs (by decide)
  · dsimp only
    repeat' split
    all_goals intro h
    all_goals try exact ⟨rfl, rfl, rfl⟩
    all_goals try exact Option.noConfusion h
    all_goals injection h with h'
    all_goals subst h'
    all_goals exact absurd hs (by decide)

set_option maxHeartbeats 2000000 in
/-- C1: starting from a published directory that is a complete index or
absent, every observable filesystem state before the swap completes shows
the published directory equal to the initial one or absent — never a
partially written index; and when the staging write fails, the final state
has the staging directory removed and the published directory untouched. -/
theorem C1_publish_atomicity (ex : Bool) (docs : List SrcFile) (o : Oracle) (fs0 : FS)
    (hp : fs0.pub = Dir.absent ∨ ∃ P, fs0.pub = Dir.complete P) :
    (∀ fs' ∈ (runMain ex docs o fs0).preSwap,
        (fs'.pub = fs0.pub ∨ fs'.pub = Dir.absent) ∧ ∀ d, fs'.pub ≠ Dir.writing d) ∧
    ((runMain ex docs o fs0).err = some Stage.saveIdx →
        (runMain ex docs o fs0).final.temp = Dir.absent ∧
        (runMain ex docs o fs0).final.pub = fs0.pub) := by
  constructor
  · intro fs'
    unfold runMain finishPublish
    split
    · intro hm
      simp only [List.mem_singleton] at hm
      subst hm
      exact ⟨Or.inl rfl, by rcases hp with he | ⟨P, he⟩ <;> simp [he]⟩
    · dsimp only
      repeat' split
      all_goals intro hm
      all_goals simp only [List.mem_cons, List.mem_append, List.mem_singleton,
        List.not_mem_nil, or_false] at hm
      all_goals first
        | (rcases hm with (rfl | rfl | rfl | rfl) | rfl)
        | (rcases hm with rfl | rfl | rfl | rfl | rfl)
      all_goals first
        | exact ⟨Or.inl rfl, by rcases hp with he | ⟨P, he⟩ <;> simp [he]⟩
        | exact ⟨Or.inr rfl, by simp⟩
  · unfold runMain finishPublish
    split
    · intro h
      injection h with h'
      exact absurd h' (by decide)
    · dsimp only
      repeat' split
      all_goals intro h
      all_goals try exact ⟨rfl, rfl⟩
      all_goals try exact Option.noConfusion h
      all_goals injection h with h'
      all_goals exact absurd h' (by decide)

theorem C1_publish_atomicity_witness :
    ((⟨Dir.complete [⟨"p.pdf", "x"⟩], Dir.absent, none⟩ : FS).pub = Dir.absent ∨
      ∃ P, (⟨Dir.complete [⟨"p.pdf", "x"⟩], Dir.absent, none⟩ : FS).pub = Dir.complete P) ∧
    ((∀ fs' ∈ (runMain true [⟨"a.pdf", 5⟩]
          ⟨fun _ => some [⟨"a.pdf", "t"⟩], true, true, true, true, true⟩
          ⟨Dir.complete [⟨"p.pdf", "x"⟩], Dir.absent, none⟩).preSwap,
        (fs'.pub = Dir.complete [⟨"p.pdf", "x"⟩] ∨ fs'.pub = Dir.absent) ∧
          ∀ d, fs'.pub ≠ Dir.writing d) ∧
      ((runMain true [⟨"a.pdf", 5⟩]
          ⟨fun _ => some [⟨"a.pdf", "t"⟩], true, true, true, true, true⟩
          ⟨Dir.complete [⟨"p.pdf", "x"⟩], Dir.absent, none⟩).err = some Stage.saveIdx →
        (runMain true [⟨"a.pdf", 5⟩]
          ⟨fun _ => some [⟨"a.pdf", "t"⟩], true, true, true, true, true⟩
          ⟨Dir.complete [⟨"p.pdf", "x"⟩], Dir.absent, none⟩).final.temp = Dir.absent ∧
        (runMain true [⟨"a.pdf", 5⟩]
          ⟨fun _ => some [⟨"a.pdf", "t"⟩], true, true, true, true, true⟩
          ⟨Dir.complete [⟨"p.pdf", "x"⟩], Dir.absent, none⟩).final.pub =
            Dir.complete [⟨"p.pdf", "x"⟩])) :=
  ⟨Or.inr ⟨[⟨"p.pdf", "x"⟩], rfl⟩,
   C1_publish_atomicity true [⟨"a.pdf", 5⟩]
     ⟨fun _ => some [⟨"a.pdf", "t"⟩], true, true, true, true, true⟩
     ⟨Dir.complete [⟨"p.pdf", "x"⟩], Dir.absent, none⟩
     (Or.inr ⟨[⟨"p.pdf", "x"⟩], rfl⟩)⟩

theorem C2_abort_leaves_state_witness :
    (runMain true [⟨"a.pdf", 1⟩]
        ⟨fun _ => some [⟨"a.pdf", "t"⟩], true, true, false, true, true⟩
        ⟨Dir.absent, Dir.absent, none⟩).err = some Stage.embed ∧
    (Stage.embed = Stage.embedInit ∨ Stage.embed = Stage.embed ∨
      Stage.embed = Stage.saveIdx) ∧
    ((runMain true [⟨"a.pdf", 1⟩]
        ⟨fun _ => some [⟨"a.pdf", "t"⟩], true, true, false, true, true⟩
        ⟨Dir.absent, Dir.absent, none⟩).final.pub = Dir.absent ∧
     (runMain true [⟨"a.pdf", 1⟩]
        ⟨fun _ => some [⟨"a.pdf", "t"⟩], true, true, false, true, true⟩
        ⟨Dir.absent, Dir.absent, none⟩).final.regFile = none ∧
     (runMain true [⟨"a.pdf", 1⟩]
        ⟨fun _ => some [⟨"a.pdf", "t"⟩], true, true, false, true, true⟩
        ⟨Dir.absent, Dir.absent, none⟩).final.temp = Dir.absent) :=
  ⟨by decide, by decide,
   C2_abort_leaves_state true [⟨"a.pdf", 1⟩]
     ⟨fun _ => some [⟨"a.pdf", "t"⟩], true, true, false, true, true⟩
     ⟨Dir.absent, Dir.absent, none⟩ Stage.embed (by decide) (by decide)⟩

/-- C7 (counterexample): a leftover staging directory is present when the
run starts, the run finishes without error (the no-changes early exit of
lines 88-90), yet the leftover staging directory is never deleted — the
claim says the new run deletes it. -/
theorem C7_leftover_kept_counterexample :
    (⟨Dir.complete [⟨"p.pdf", "x"⟩], Dir.complete [⟨"left", "l"⟩],
        some (some [("a.pdf", 5)])⟩ : FS).temp ≠ Dir.absent ∧
    (runMain true [⟨"a.pdf", 5⟩] ⟨fun _ => none, true, true, true, true, true⟩
        ⟨Dir.complete [⟨"p.pdf", "x"⟩], Dir.complete [⟨"left", "l"⟩],
          some (some [("a.pdf", 5)])⟩).err = none ∧
    (runMain true [⟨"a.pdf", 5⟩] ⟨fun _ => none, true, true, true, true, true⟩
        ⟨Dir.complete [⟨"p.pdf", "x"⟩], Dir.complete [⟨"left", "l"⟩],
          some (some [("a.pdf", 5)])⟩).final.temp = Dir.complete [⟨"left", "l"⟩] := by
  decide

set_option maxHeartbeats 3000000 in
/-- C7 (amended): every staging write is immediately preceded by an
observable state in which the staging directory is absent (so a leftover
staging directory is deleted before the run writes its own staging
output, whenever it writes one — a run that exits with no changes leaves
the leftover in place); and the run never treats the staging directory as
the published index: the published result, error outcome, embedding calls,
and record outcome are independent of the initial staging contents. -/
theorem C7_staging_cleanup_amended (ex : Bool) (docs : List SrcFile) (o : Oracle)
    (fs0 : FS) (t : Dir) :
    List.Chain' (fun a b => ∀ d, b.temp = Dir.writing d → a.temp = Dir.absent)
      (runMain ex docs o fs0).trace ∧
    ((runMain ex docs o ⟨fs0.pub, t, fs0.regFile⟩).final.pub =
        (runMain ex docs o fs0).final.pub ∧
      (runMain ex docs o ⟨fs0.pub, t, fs0.regFile⟩).err = (runMain ex docs o fs0).err ∧
      (runMain ex docs o ⟨fs0.pub, t, fs0.regFile⟩).embedCalls =
        (runMain ex docs o fs0).embedCalls ∧
      (runMain ex docs o ⟨fs0.pub, t, fs0.regFile⟩).regMem =
        (runMain ex docs o fs0).regMem ∧
      (runMain ex docs o ⟨fs0.pub, t, fs0.regFile⟩).final.regFile =
        (runMain ex docs o fs0).final.regFile) := by
  constructor
  · unfold runMain finishPublish
    split
    · simp [RunResult.trace]
    · dsimp only
      repeat' split
      all_goals simp [RunResult.trace, List.chain'_cons]
  · obtain ⟨pub0, temp0, rf0⟩ := fs0
    dsimp only
    cases hc : cargar_registro_archivos rf0 with
    | error e => simp [runMain, hc]
    | ok reg0 =>
      by_cases h1 : ((obtener_archivos_a_procesar ex docs reg0).1.isEmpty &&
          dirExists pub0) = true
      · simp [runMain, hc, h1]
      · by_cases h2 : o.embedInitOk = true
        · by_cases h3 : (dirExists pub0 && !(procesar_lote_documentos o.parse
              (obtener_archivos_a_procesar ex docs reg0).1).isEmpty) = true
          · by_cases h4 : o.loadOk = true
            · by_cases h5 : o.embedOk = true
              · by_cases h6 : o.saveOk = true
                · by_cases h7 : o.saveRegOk = true
                  · simp [runMain, finishPublish, hc, h1, h2, h3, h4, h5, h6, h7]
                  · simp [runMain, finishPublish, hc, h1, h2, h3, h4, h5, h6, h7]
                · simp [runMain, finishPublish, hc, h1, h2, h3, h4, h5, h6]
              · simp [runMain, finishPublish, hc, h1, h2, h3, h4, h5]
            · simp [runMain, hc, h1, h2, h3, h4]
          · by_cases h3b : (!(procesar_lote_documentos o.parse
                (obtener_archivos_a_procesar ex docs reg0).1).isEmpty) = true
            · rw [h3b] at h3
              simp only [Bool.and_true] at h3
              by_cases h5 : o.embedOk = true
              · by_cases h6 : o.saveOk = true
                · by_cases h7 : o.saveRegOk = true
                  · simp [runMain, finishPublish, hc, h1, h2, h3, h3b, h5, h6, h7]
                  · simp [runMain, finishPublish, hc, h1, h2, h3, h3b, h5, h6, h7]
                · simp [runMain, finishPublish, hc, h1, h2, h3, h3b, h5, h6]
              · simp [runMain, finishPublish, hc, h1, h2, h3, h3b, h5]
            · simp [runMain, hc, h1, h2, h3, h3b]
        · simp [runMain, hc, h1, h2]

theorem obtener_lookup_mono (ex : Bool) (docs : List SrcFile) (reg : Reg) (q : String)
    (t : Nat) (h : lookupReg reg q = some t) :
    ∃ u, lookupReg (obtener_archivos_a_procesar ex docs reg).2 q = some u ∧ t ≤ u := by
  cases ex
  · exact ⟨t, h, Nat.le_refl t⟩
  · exact obtenerLoop_lookup_mono docs [] reg q t h

theorem obtener_idem (ex : Bool) (docs : List SrcFile) (reg0 : Reg) :
    obtener_archivos_a_procesar ex docs (obtener_archivos_a_procesar ex docs reg0).2 =
      ([], (obtener_archivos_a_procesar ex docs reg0).2) := by
  cases ex
  · rfl
  · apply obtenerLoop_no_stale
    intro sf hm
    exact obtenerLoop_covers docs [] reg0 sf hm

set_option maxHeartbeats 2000000 in
/-- C6: running the pipeline a second time, with the documents, their
modification times and the collaborators unchanged, after a first run that
ended without error, performs zero embedding calls, ends without error,
and leaves the filesystem — the published index included — identical to
the state the first run left. -/
theorem C6_second_run_noop (ex : Bool) (docs : List SrcFile) (o : Oracle) (fs0 : FS)
    (h1 : (runMain ex docs o fs0).err = none) :
    (runMain ex docs o (runMain ex docs o fs0).final).embedCalls = 0 ∧
    (runMain ex docs o (runMain ex docs o fs0).final).err = none ∧
    (runMain ex docs o (runMain ex docs o fs0).final).final =
      (runMain ex docs o fs0).final := by
  obtain ⟨pub0, temp0, rf0⟩ := fs0
  obtain ⟨r1, hr1⟩ : ∃ r, runMain ex docs o ⟨pub0, temp0, rf0⟩ = r := ⟨_, rfl⟩
  rw [hr1] at h1 ⊢
  cases hc : cargar_registro_archivos rf0 with
  | error e =>
      exfalso
      rw [← hr1] at h1
      simp [runMain, hc] at h1
  | ok reg0 =>
      by_cases hco1 : ((obtener_archivos_a_procesar ex docs reg0).1.isEmpty &&
          dirExists pub0) = true
      · simp only [runMain, hc, hco1, if_true] at hr1
        subst hr1
        refine ⟨?_, ?_, ?_⟩ <;> simp [runMain, hc, hco1]
      · by_cases h2 : o.embedInitOk = true
        · by_cases h3 : (dirExists pub0 && !(procesar_lote_documentos o.parse
              (obtener_archivos_a_procesar ex docs reg0).1).isEmpty) = true
          · by_cases h4 : o.loadOk = true
            · by_cases h5 : o.embedOk = true
              · by_cases h6 : o.saveOk = true
                · by_cases h7 : o.saveRegOk = true
                  · simp only [runMain, finishPublish, hc, hco1, h2, h3, h4, h5, h6, h7,
                      Bool.not_true, Bool.false_eq_true, if_false, if_true] at hr1
                    subst hr1
                    refine ⟨?_, ?_, ?_⟩ <;> simp [runMain, cargar_registro_archivos, obtener_idem, dirExists]
                  · exfalso
                    rw [← hr1] at h1
                    simp [runMain, finishPublish, hc, hco1, h2, h3, h4, h5, h6, h7] at h1
                · exfalso
                  rw [← hr1] at h1
                  simp [runMain, finishPublish, hc, hco1, h2, h3, h4, h5, h6] at h1
              · exfalso
                rw [← hr1] at h1
                simp [runMain, hc, hco1, h2, h3, h4, h5] at h1
            · exfalso
              rw [← hr1] at h1
              simp [runMain, hc, hco1, h2, h3, h4] at h1
          · by_cases h3b : (!(procesar_lote_documentos o.parse
                (obtener_archivos_a_procesar ex docs reg0).1).isEmpty) = true
            · rw [h3b] at h3
              simp only [Bool.and_true] at h3
              by_cases h5 : o.embedOk = true
              · by_cases h6 : o.saveOk = true
                · by_cases h7 : o.saveRegOk = true
                  · simp only [runMain, finishPublish, hc, hco1, h2, h3, h3b, h5, h6, h7,
                      Bool.not_true, Bool.false_eq_true, if_false, if_true] at hr1
                    subst hr1
                    refine ⟨?_, ?_, ?_⟩ <;> simp [runMain, cargar_registro_archivos, obtener_idem, dirExists]
                  · exfalso
                    rw [← hr1] at h1
                    simp [runMain, finishPublish, hc, hco1, h2, h3, h3b, h5, h6, h7] at h1
                · exfalso
                  rw [← hr1] at h1
                  simp [runMain, finishPublish, hc, hco1, h2, h3, h3b, h5, h6] at h1
              · exfalso
                rw [← hr1] at h1
                simp [runMain, hc, hco1, h2, h3, h3b, h5] at h1
            · simp only [runMain, hc, hco1, h2, h3, h3b, Bool.not_true,
                Bool.false_eq_true, if_false, if_true] at hr1
              subst hr1
              refine ⟨?_, ?_, ?_⟩ <;> simp [runMain, hc, hco1, h2, h3, h3b]
        · exfalso
          rw [← hr1] at h1
          simp [runMain, hc, hco1, h2] at h1

set_option maxHeartbeats 1000000 in
/-- C10: the pipeline never removes anything. Change detection only adds
record entries or raises recorded timestamps; starting from a published
complete index and a persisted record, every run leaves the published
index a complete index containing every old document, and leaves the
record file either untouched or holding a record in which every old path
is still present with a timestamp at least as large. -/
theorem C10_monotone_growth (ex : Bool) (docs : List SrcFile) (o : Oracle)
    (reg r0 : Reg) (old : List Doc) (temp0 : Dir) :
    (∀ q t, lookupReg reg q = some t →
        ∃ u, lookupReg (obtener_archivos_a_procesar ex docs reg).2 q = some u ∧ t ≤ u) ∧
    (∃ nw, (runMain ex docs o ⟨Dir.complete old, temp0, some (some r0)⟩).final.pub =
        Dir.complete nw ∧ ∀ d ∈ old, d ∈ nw) ∧
    ((runMain ex docs o ⟨Dir.complete old, temp0, some (some r0)⟩).final.regFile =
        some (some r0) ∨
      ∃ r', (runMain ex docs o ⟨Dir.complete old, temp0, some (some r0)⟩).final.regFile =
          some (some r') ∧
        ∀ q t, lookupReg r0 q = some t → ∃ u, lookupReg r' q = some u ∧ t ≤ u) := by
  refine ⟨fun q t h => obtener_lookup_mono ex docs reg q t h, ?_⟩
  by_cases hf : (obtener_archivos_a_procesar ex docs r0).1.isEmpty = true
  · constructor
    · exact ⟨old, by simp [runMain, cargar_registro_archivos, dirExists, hf], fun d hd => hd⟩
    · exact Or.inl (by simp [runMain, cargar_registro_archivos, dirExists, hf])
  · by_cases h2 : o.embedInitOk = true
    · by_cases hch : (procesar_lote_documentos o.parse
          (obtener_archivos_a_procesar ex docs r0).1).isEmpty = true
      · constructor
        · exact ⟨old,
            by simp [runMain, cargar_registro_archivos, dirExists, hf, h2, hch],
            fun d hd => hd⟩
        · exact Or.inl
            (by simp [runMain, cargar_registro_archivos, dirExists, hf, h2, hch])
      · by_cases h4 : o.loadOk = true
        · by_cases h5 : o.embedOk = true
          · by_cases h6 : o.saveOk = true
            · by_cases h7 : o.saveRegOk = true
              · constructor
                · exact ⟨old ++ procesar_lote_documentos o.parse
                      (obtener_archivos_a_procesar ex docs r0).1,
                    by simp [runMain, finishPublish, cargar_registro_archivos, dirExists,
                      dirDocs, hf, h2, hch, h4, h5, h6, h7],
                    fun d hd => List.mem_append_left _ hd⟩
                · exact Or.inr ⟨(obtener_archivos_a_procesar ex docs r0).2,
                    by simp [runMain, finishPublish, cargar_registro_archivos, dirExists,
                      dirDocs, hf, h2, hch, h4, h5, h6, h7],
                    fun q t hqt => obtener_lookup_mono ex docs r0 q t hqt⟩
              · constructor
                · exact ⟨old ++ procesar_lote_documentos o.parse
                      (obtener_archivos_a_procesar ex docs r0).1,
                    by simp [runMain, finishPublish, cargar_registro_archivos, dirExists,
                      dirDocs, hf, h2, hch, h4, h5, h6, h7],
                    fun d hd => List.mem_append_left _ hd⟩
                · exact Or.inl
                    (by simp [runMain, finishPublish, cargar_registro_archivos, dirExists,
                      dirDocs, hf, h2, hch, h4, h5, h6, h7])
            · constructor
              · exact ⟨old,
                  by simp [runMain, finishPublish, cargar_registro_archivos, dirExists,
                    dirDocs, hf, h2, hch, h4, h5, h6],
                  fun d hd => hd⟩
              · exact Or.inl
                  (by simp [runMain, finishPublish, cargar_registro_archivos, dirExists,
                    dirDocs, hf, h2, hch, h4, h5, h6])
          · constructor
            · exact ⟨old,
                by simp [runMain, cargar_registro_archivos, dirExists, hf, h2, hch, h4, h5],
                fun d hd => hd⟩
            · exact Or.inl
                (by simp [runMain, cargar_registro_archivos, dirExists, hf, h2, hch, h4, h5])
        · constructor
          · exact ⟨old,
              by simp [runMain, cargar_registro_archivos, dirExists, hf, h2, hch, h4],
              fun d hd => hd⟩
          · exact Or.inl
              (by simp [runMain, cargar_registro_archivos, dirExists, hf, h2, hch, h4])
    · constructor
      · exact ⟨old, by simp [runMain, cargar_registro_archivos, dirExists, hf, h2],
          fun d hd => hd⟩
      · exact Or.inl (by simp [runMain, cargar_registro_archivos, dirExists, hf, h2])

/-- C3 (code evaluation at the failing input): a two-file first run in
which `a.pdf` fails to parse (and is skipped) while `b.pdf` parses; the
run ends without error, the persisted record lists `a.pdf` as ingested at
its modification time, yet the published index contains no chunk of
`a.pdf` — contradicting the invariant that every recorded path has been
fully ingested into the published index. -/
theorem C3_skipped_file_recorded :
    (runMain true [⟨"a.pdf", 5⟩, ⟨"b.pdf", 7⟩]
        ⟨fun p => if p = "b.pdf" then some [⟨"b.pdf", "cb"⟩] else none,
          true, true, true, true, true⟩
        ⟨Dir.absent, Dir.absent, none⟩).err = none ∧
    (runMain true [⟨"a.pdf", 5⟩, ⟨"b.pdf", 7⟩]
        ⟨fun p => if p = "b.pdf" then some [⟨"b.pdf", "cb"⟩] else none,
          true, true, true, true, true⟩
        ⟨Dir.absent, Dir.absent, none⟩).final.regFile =
      some (some [("a.pdf", 5), ("b.pdf", 7)]) ∧
    (runMain true [⟨"a.pdf", 5⟩, ⟨"b.pdf", 7⟩]
        ⟨fun p => if p = "b.pdf" then some [⟨"b.pdf", "cb"⟩] else none,
          true, true, true, true, true⟩
        ⟨Dir.absent, Dir.absent, none⟩).final.pub = Dir.complete [⟨"b.pdf", "cb"⟩] ∧
    (∀ d ∈ ([⟨"b.pdf", "cb"⟩] : List Doc), d.src ≠ "a.pdf") := by
  decide

theorem C6_second_run_noop_witness :
    (runMain true [⟨"d.pdf", 3⟩]
        ⟨fun _ => some [⟨"d.pdf", "t"⟩], true, true, true, true, true⟩
        ⟨Dir.absent, Dir.absent, none⟩).err = none ∧
    ((runMain true [⟨"d.pdf", 3⟩]
        ⟨fun _ => some [⟨"d.pdf", "t"⟩], true, true, true, true, true⟩
        (runMain true [⟨"d.pdf", 3⟩]
          ⟨fun _ => some [⟨"d.pdf", "t"⟩], true, true, true, true, true⟩
          ⟨Dir.absent, Dir.absent, none⟩).final).embedCalls = 0 ∧
     (runMain true [⟨"d.pdf", 3⟩]
        ⟨fun _ => some [⟨"d.pdf", "t"⟩], true, true, true, true, true⟩
        (runMain true [⟨"d.pdf", 3⟩]
          ⟨fun _ => some [⟨"d.pdf", "t"⟩], true, true, true, true, true⟩
          ⟨Dir.absent, Dir.absent, none⟩).final).err = none ∧
     (runMain true [⟨"d.pdf", 3⟩]
        ⟨fun _ => some [⟨"d.pdf", "t"⟩], true, true, true, true, true⟩
        (runMain true [⟨"d.pdf", 3⟩]
          ⟨fun _ => some [⟨"d.pdf", "t"⟩], true, true, true, true, true⟩
          ⟨Dir.absent, Dir.absent, none⟩).final).final =
       (runMain true [⟨"d.pdf", 3⟩]
          ⟨fun _ => some [⟨"d.pdf", "t"⟩], true, true, true, true, true⟩
          ⟨Dir.absent, Dir.absent, none⟩).final) :=
  ⟨by decide,
   C6_second_run_noop true [⟨"d.pdf", 3⟩]
     ⟨fun _ => some [⟨"d.pdf", "t"⟩], true, true, true, true, true⟩
     ⟨Dir.absent, Dir.absent, none⟩ (by decide)⟩
